import Mathlib

/-!
Verification of the graphql-schema-generator (src/main.js).

The development shallowly embeds the two stages of the script:

* the TypeScript-AST lowering (`generateType`, `generateMember`,
  `generateScalarsDefinition`, `generateArgumentsDefinition`,
  `generateTypeScriptDefinition`, the `traverse` visitor and the
  emptiness check of the produced SDL blob), and
* the GraphQL-AST rewrite pass (Query reposition, the two argument
  binding passes with in-place reclassification to input types, and the
  regex-based prune of `*Args` definitions).

JavaScript property accesses on `undefined` (which throw a `TypeError` at
run time) are modelled with `Except JsError`; a template-literal
interpolation of a non-string value is modelled by `jsToString`.
-/

namespace GqlGen

/-- The only JavaScript failure mode the embedded code can hit: reading a
property of `undefined`. -/
inductive JsError where
  | typeError
deriving DecidableEq, Repr

/-- Literal nodes that can appear under a `TSLiteralType`.  The code only
inspects `StringLiteral`s; every other literal kind is `otherLiteral`. -/
inductive TSLiteral where
  | stringLiteral (value : String)
  | otherLiteral
deriving DecidableEq, Repr

mutual
/-- A TypeScript type-annotation node, restricted to the node kinds the
script inspects.  `typeReference` keeps Babel's `typeParameters` as an
`Option`: `none` models an absent `typeParameters` property (accessing
`.params` on it throws).  `typeName` of a reference is modelled as the
identifier's name string.  `otherNode` stands for every other node kind,
which the `switch` sends to its `default` branch. -/
inductive TSType where
  | stringKeyword
  | numberKeyword
  | booleanKeyword
  | anyKeyword
  | typeLiteral (members : List TSMember)
  | typeReference (name : String) (typeParameters : Option (List TSType))
  | indexedAccess (objectType : TSType) (indexType : TSType)
  | literalType (lit : TSLiteral)
  | intersectionType (types : List TSType)
  | otherNode

/-- A member of a type literal.  `key = none` models a member whose key
identifier is unusable (absent), matching the `member.key &&` truthiness
guard of `generateMember`; `otherMember` is any non-property-signature
member kind. -/
inductive TSMember where
  | propertySignature (key : Option String) (typeAnn : Option TSType) (optional : Bool)
  | otherMember
end

/-- Result of a JS expression that is either a string or a Babel node
(`generateType` returns the identifier *node* in its degenerate
indexed-access fallback). -/
inductive JsValue where
  | jstr (s : String)
  | jnode (name : String)
deriving DecidableEq, Repr

/-- Template-literal interpolation: strings embed verbatim, a node object
stringifies to `[object Object]`. -/
def jsToString : JsValue → String
  | .jstr s => s
  | .jnode _ => "[object Object]"

/-- JavaScript `String.prototype.startsWith`, modelled structurally over
the character list (the names involved are ASCII). -/
def jsStartsWith (s p : String) : Bool := p.data.isPrefixOf s.data

/-- JavaScript `String.prototype.endsWith`. -/
def jsEndsWith (s p : String) : Bool := p.data.isSuffixOf s.data

/-- JavaScript `String.prototype.toLowerCase` on ASCII identifiers. -/
def jsToLowerCase (s : String) : String := ⟨s.data.map Char.toLower⟩

/-- JavaScript `String.prototype.toUpperCase` on ASCII identifiers. -/
def jsToUpperCase (s : String) : String := ⟨s.data.map Char.toUpper⟩

/-- Embedding of `generateType` (src/main.js lines 206-254).  The `Maybe`
and `Array` branches read `typeParameters.params` without a guard, so an
absent parameter list throws; the indexed-access branch reads
`objectType.typeName.name`, so a non-reference object type throws, and a
non-`Scalars` reference object returns the identifier node itself. -/
def generateType : TSType → Except JsError JsValue
  | .stringKeyword => .ok (.jstr "String")
  | .typeLiteral _ => .ok (.jstr "String")
  | .numberKeyword => .ok (.jstr "Int")
  | .booleanKeyword => .ok (.jstr "Boolean")
  | .typeReference name tps =>
      if name == "Scalars" then
        match tps with
        | some (p :: _) =>
            match p with
            | .literalType (.stringLiteral v) => .ok (.jstr v)
            | _ => .ok (.jstr "Unknown")
        | _ => .ok (.jstr "Unknown")
      else if name == "Maybe" then
        match tps with
        | none => .error .typeError
        | some [] => .ok (.jstr "Unknown")
        | some (p :: _) => generateType p
      else if name == "Array" then
        match tps with
        | none => .error .typeError
        | some [] => .ok (.jstr "Unknown")
        | some (p :: _) => do
            let t ← generateType p
            pure (.jstr ("[" ++ jsToString t ++ "]"))
      else .ok (.jstr name)
  | .indexedAccess obj idx =>
      match obj with
      | .typeReference oname _ =>
          if oname == "Scalars" then
            match idx with
            | .literalType (.stringLiteral v) => .ok (.jstr v)
            | _ => .ok (.jstr "Unknown")
          else .ok (.jnode oname)
      | _ => .error .typeError
  | .anyKeyword => .ok (.jstr "String")
  | .literalType _ => .ok (.jstr "Unknown")
  | .intersectionType _ => .ok (.jstr "Unknown")
  | .otherNode => .ok (.jstr "Unknown")

/-- Embedding of `generateMember` (src/main.js lines 196-204). -/
def generateMember : TSMember → Except JsError String
  | .propertySignature (some key) (some ann) opt => do
      let t ← generateType ann
      pure ("  " ++ key ++ ": " ++ jsToString t ++ (if opt then "" else "!"))
  | _ => pure ""

/-- Reading `member.key.name` with no guard, as `generateScalarsDefinition`
does: a member without a key throws. -/
def scalarKeyName : TSMember → Except JsError String
  | .propertySignature (some k) _ _ => .ok k
  | _ => .error .typeError

/-- Embedding of `generateScalarsDefinition` (src/main.js lines 143-154). -/
def generateScalarsDefinition : TSType → Except JsError String
  | .typeLiteral members =>
      if members.length > 0 then do
        let names ← members.mapM scalarKeyName
        pure ("scalar " ++ String.intercalate "\n scalar " names ++ "\n")
      else pure ""
  | _ => pure ""

/-- The `types.find(t => t.type === 'TSTypeLiteral')` scan used by the
intersection branches. -/
def firstTypeLiteralMembers : List TSType → Option (List TSMember)
  | [] => none
  | t :: rest =>
      match t with
      | .typeLiteral ms => some ms
      | _ => firstTypeLiteralMembers rest

/-- Embedding of `generateArgumentsDefinition` (src/main.js lines 156-172),
including the stray `n` emitted in the intersection branch and the switch
fall-through to `''` when the intersection has no non-empty type literal. -/
def generateArgumentsDefinition : TSType → Except JsError String
  | .typeLiteral members =>
      if members.length > 0 then do
        let parts ← members.mapM generateMember
        pure ("(" ++ String.intercalate ", " parts ++ ")")
      else pure ""
  | .intersectionType types =>
      (match firstTypeLiteralMembers types with
      | some ms =>
          if ms.length > 0 then do
            let parts ← ms.mapM generateMember
            pure ("(n" ++ String.intercalate ", " parts ++ ")")
          else pure ""
      | none => pure "")
  | _ => pure ""

/-- Embedding of `generateTypeScriptDefinition` (src/main.js lines 174-194). -/
def generateTypeScriptDefinition : TSType → Except JsError String
  | .typeLiteral members =>
      if members.length > 0 then do
        let parts ← members.mapM generateMember
        pure ("\x7b\n" ++ String.intercalate "\n" parts ++ "\n\x7d")
      else pure ""
  | .intersectionType types =>
      (match firstTypeLiteralMembers types with
      | some ms =>
          if ms.length > 0 then do
            let parts ← ms.mapM generateMember
            pure ("\x7b\n" ++ String.intercalate "\n" parts ++ "\n\x7d")
          else pure ""
      | none => pure "")
  | _ => pure ""

/-- A top-level declaration visited by the Babel traversal.  A tagged
template carries its tag identifier name and the joined cooked text of its
quasis; an enum carries its member identifier names in source order. -/
inductive TSDecl where
  | taggedTemplate (tag : String) (cooked : String)
  | typeAlias (name : String) (typeAnn : TSType)
  | enumDecl (name : String) (members : List String)

/-- The mutable state of the traversal: the SDL text accumulated in
`typeDefs` and the `mutationArgs` object, modelled as an insertion-ordered
association list. -/
structure ExtractState where
  typeDefs : String
  mutationArgs : List (String × String)
deriving DecidableEq, Repr

/-- JavaScript object property assignment `o[k] = v`: overwrite in place
if the key exists, otherwise append. -/
def objSet (l : List (String × String)) (k v : String) : List (String × String) :=
  if l.any (fun p => p.1 == k) then
    l.map (fun p => if p.1 == k then (k, v) else p)
  else l ++ [(k, v)]

/-- Embedding of the traversal visitor (src/main.js lines 38-72): one step
per visited declaration.  A `Mutation*Args` alias is recorded into
`mutationArgs` *and* still falls through to the ordinary alias lowering;
`Query*Args` aliases are never recorded. -/
def visitDecl (st : ExtractState) : TSDecl → Except JsError ExtractState
  | .taggedTemplate tag cooked =>
      if tag == "gql" || tag == "graphql" then
        pure { st with typeDefs := st.typeDefs ++ cooked ++ "\n" }
      else pure st
  | .typeAlias name ann => do
      let st ←
        if jsStartsWith name "Mutation" && jsEndsWith name "Args" then do
          let a ← generateArgumentsDefinition ann
          pure { st with mutationArgs := objSet st.mutationArgs name a }
        else pure st
      if name == "Scalars" then do
        let s ← generateScalarsDefinition ann
        pure { st with typeDefs := st.typeDefs ++ s }
      else do
        let td ← generateTypeScriptDefinition ann
        if td == "" then pure st
        else pure { st with typeDefs := st.typeDefs ++ "type " ++ name ++ " " ++ td ++ "\n" }
  | .enumDecl name members =>
      pure { st with typeDefs :=
        st.typeDefs ++ "enum " ++ name ++ " \x7b\n"
          ++ String.intercalate ", " (members.map jsToUpperCase) ++ "\n\x7d\n" }

/-- The whole extraction: visit every declaration in source order starting
from an empty blob and an empty args table. -/
def runExtraction (decls : List TSDecl) : Except JsError ExtractState :=
  decls.foldlM visitDecl ⟨"", []⟩

/-- Pipeline-level errors: the explicit `No GraphQL type definitions
found` throw, or a JavaScript `TypeError` escaping from the lowering
helpers (both land in the same `catch`). -/
inductive PipeError where
  | noDefinitionsFound
  | jsTypeError
deriving DecidableEq, Repr

/-- The front of the pipeline (src/main.js lines 28-79): run the
extraction, then apply the `if (!typeDefs) throw` emptiness check; a
non-empty blob is handed on to `parse`/rewrite. -/
def pipelineBlob (decls : List TSDecl) : Except PipeError String :=
  match runExtraction decls with
  | .error _ => .error .jsTypeError
  | .ok st => if st.typeDefs == "" then .error .noDefinitionsFound else .ok st.typeDefs

/-- What the run writes out: errors are caught by the `catch` handler
(src/main.js lines 138-140), which logs and writes nothing. -/
def pipelineOutput (decls : List TSDecl) : Option String :=
  (pipelineBlob decls).toOption

end GqlGen

namespace GqlGen

/-- Shapes on which `generateType` is defined and string-valued: every
`Maybe`/`Array` reference carries a (possibly empty) type-parameter list,
and every indexed access has a `Scalars` type-reference object. -/
def wfStr : TSType → Bool
  | .stringKeyword => true
  | .numberKeyword => true
  | .booleanKeyword => true
  | .anyKeyword => true
  | .typeLiteral _ => true
  | .literalType _ => true
  | .intersectionType _ => true
  | .otherNode => true
  | .indexedAccess (.typeReference oname _) _ => oname == "Scalars"
  | .indexedAccess _ _ => false
  | .typeReference name tps =>
      if name == "Scalars" then true
      else if name == "Maybe" then
        match tps with
        | none => false
        | some [] => true
        | some (p :: _) => wfStr p
      else if name == "Array" then
        match tps with
        | none => false
        | some [] => true
        | some (p :: _) => wfStr p
      else true

/-- `generateType` ran to completion and produced a string. -/
def isStrOk : Except JsError JsValue → Bool
  | .ok (.jstr _) => true
  | _ => false

/-- Claim C5 (amended): `generateType` is total and string-valued on all
shapes satisfying `wfStr`. -/
theorem generateType_total_on_wf : ∀ t : TSType, wfStr t = true → isStrOk (generateType t) = true
  | .stringKeyword, _ => rfl
  | .numberKeyword, _ => rfl
  | .booleanKeyword, _ => rfl
  | .anyKeyword, _ => rfl
  | .typeLiteral _, _ => rfl
  | .literalType _, _ => rfl
  | .intersectionType _, _ => rfl
  | .otherNode, _ => rfl
  | .indexedAccess obj idx, h => by
      cases obj
      case typeReference oname tps =>
        rw [wfStr.eq_def] at h
        dsimp only at h
        rw [generateType.eq_def]
        dsimp only
        rw [if_pos h]
        split <;> rfl
      all_goals (rw [wfStr.eq_def] at h; dsimp only at h; exact Bool.noConfusion h)
  | .typeReference name tps, h => by
      rw [generateType.eq_def]; dsimp only
      rw [wfStr.eq_def] at h; dsimp only at h
      by_cases hs : (name == "Scalars") = true
      · rw [if_pos hs]
        split
        · split <;> rfl
        · rfl
      · rw [if_neg hs] at h ⊢
        by_cases hm : (name == "Maybe") = true
        · rw [if_pos hm] at h ⊢
          match tps, h with
          | none, h => exact Bool.noConfusion h
          | some [], _ => rfl
          | some (p :: _), h => exact generateType_total_on_wf p h
        · rw [if_neg hm] at h ⊢
          by_cases ha : (name == "Array") = true
          · rw [if_pos ha] at h ⊢
            match tps, h with
            | none, h => exact Bool.noConfusion h
            | some [], _ => rfl
            | some (p :: _), h =>
              dsimp only
              have ih := generateType_total_on_wf p h
              cases hgp : generateType p with
              | error e => rw [hgp] at ih; exact Bool.noConfusion ih
              | ok v =>
                cases v with
                | jstr s => rfl
                | jnode n => rw [hgp] at ih; exact Bool.noConfusion ih
          · rw [if_neg ha] at h ⊢
            rfl

/-- Claim C5 (counterexample): `generateType` throws on a `Maybe`/`Array`
reference with no type-parameter list and on an indexed access whose
object type is not a reference; for a non-`Scalars` reference object it
returns the identifier node, not a string. -/
theorem generateType_partiality_cex :
    generateType (.typeReference "Maybe" none) = .error .typeError
    ∧ generateType (.typeReference "Array" none) = .error .typeError
    ∧ generateType (.indexedAccess .stringKeyword .stringKeyword) = .error .typeError
    ∧ isStrOk (generateType (.typeReference "Maybe" none)) = false
    ∧ isStrOk (generateType (.indexedAccess (.typeReference "Foo" none) .stringKeyword)) = false :=
  ⟨rfl, rfl, rfl, rfl, rfl⟩

/-- Claim C5 (witness): the totality theorem applied to a concrete
well-formed shape. -/
theorem generateType_total_on_wf_witness :
    wfStr (.typeReference "Maybe" (some [.typeReference "Array" (some [.numberKeyword])])) = true
    ∧ isStrOk (generateType (.typeReference "Maybe" (some [.typeReference "Array" (some [.numberKeyword])]))) = true :=
  ⟨rfl, generateType_total_on_wf _ rfl⟩

/-- Claim C6: the concrete `mapType` equations of the specification all
hold (`Scalars` with an absent and with an empty type-argument list both
give `Unknown`). -/
theorem mapType_equations :
    generateType .stringKeyword = .ok (.jstr "String")
    ∧ generateType .numberKeyword = .ok (.jstr "Int")
    ∧ generateType .booleanKeyword = .ok (.jstr "Boolean")
    ∧ generateType .anyKeyword = .ok (.jstr "String")
    ∧ generateType (.typeReference "Maybe" (some [.typeReference "Array" (some [.numberKeyword])]))
        = .ok (.jstr "[Int]")
    ∧ generateType (.typeReference "Array" (some [.typeReference "Maybe" (some [.stringKeyword])]))
        = .ok (.jstr "[String]")
    ∧ generateType (.indexedAccess (.typeReference "Scalars" none) (.literalType (.stringLiteral "DateTime")))
        = .ok (.jstr "DateTime")
    ∧ generateType (.typeReference "Scalars" none) = .ok (.jstr "Unknown")
    ∧ generateType (.typeReference "Scalars" (some [])) = .ok (.jstr "Unknown") :=
  ⟨rfl, rfl, rfl, rfl, rfl, rfl, rfl, rfl, rfl⟩

/-- Claim C7 (counterexample): a non-empty object-literal shape maps to
`String`, not `Unknown` — the `TSTypeLiteral` case has no emptiness
check. -/
theorem generateType_nonempty_literal_cex :
    generateType (.typeLiteral [.propertySignature (some "a") (some .stringKeyword) false])
      = .ok (.jstr "String")
    ∧ ("String" : String) ≠ "Unknown" :=
  ⟨rfl, by decide⟩

/-- Claim C7 (amended): the string keyword and every object-literal shape
(empty or not) map to `String`; shapes matched by no rule map to
`Unknown`. -/
theorem generateType_literal_amended :
    (∀ members : List TSMember, generateType (.typeLiteral members) = .ok (.jstr "String"))
    ∧ generateType .stringKeyword = .ok (.jstr "String")
    ∧ generateType .otherNode = .ok (.jstr "Unknown")
    ∧ (∀ lit : TSLiteral, generateType (.literalType lit) = .ok (.jstr "Unknown"))
    ∧ (∀ ts : List TSType, generateType (.intersectionType ts) = .ok (.jstr "Unknown")) :=
  ⟨fun _ => rfl, rfl, rfl, fun _ => rfl, fun _ => rfl⟩

end GqlGen

namespace GqlGen

/-- `Except.ok` on the left of a bind reduces to the continuation. -/
theorem exceptOkBind {ε α β : Type} (a : α) (f : α → Except ε β) :
    (Except.ok a : Except ε α) >>= f = f a := rfl

/-- `pure` on the left of a bind reduces to the continuation. -/
theorem exceptPureBind {ε α β : Type} (a : α) (f : α → Except ε β) :
    (pure a : Except ε α) >>= f = f a := rfl

/-- Claim C8 (amended): whenever the member has a key and a type
annotation and the type lowering succeeds with value `v`, `generateMember`
returns the two-space-indented line `name: interpolated-type` with `!`
exactly when `optional = false`; a member lacking a key or a type lowers
to the empty string. -/
theorem generateMember_format :
    (∀ (key : String) (ann : TSType) (opt : Bool) (v : JsValue),
        generateType ann = .ok v →
        generateMember (.propertySignature (some key) (some ann) opt)
          = .ok ("  " ++ key ++ ": " ++ jsToString v ++ (if opt then "" else "!")))
    ∧ (∀ (ann : Option TSType) (opt : Bool),
        generateMember (.propertySignature none ann opt) = .ok "")
    ∧ (∀ (key : Option String) (opt : Bool),
        generateMember (.propertySignature key none opt) = .ok "")
    ∧ generateMember .otherMember = .ok "" := by
  refine ⟨?_, ?_, ?_, rfl⟩
  · intro key ann opt v h
    rw [generateMember.eq_def]
    dsimp only
    rw [h]
    rfl
  · intro ann opt
    cases ann <;> rfl
  · intro key opt
    cases key <;> rfl

/-- Claim C8 (counterexample): a member that has a name and a type still
makes `generateMember` throw when its type is a bare `Maybe` reference,
so no string at all is produced for it. -/
theorem generateMember_crash_cex :
    generateMember (.propertySignature (some "x") (some (.typeReference "Maybe" none)) false)
      = .error .typeError
    ∧ (Except.error JsError.typeError : Except JsError String) ≠ .ok "  x: Unknown!" :=
  ⟨rfl, fun h => Except.noConfusion h⟩

/-- Claim C8 (witness): the format theorem applied to a concrete member. -/
theorem generateMember_format_witness :
    generateType .stringKeyword = .ok (.jstr "String")
    ∧ generateMember (.propertySignature (some "id") (some .stringKeyword) false)
        = .ok "  id: String!" := by
  refine ⟨rfl, ?_⟩
  have h := generateMember_format.1 "id" .stringKeyword false (.jstr "String") rfl
  simpa using h

/-- Claim C3 (amended): only `Mutation`-prefixed `*Args` aliases are
recorded into the args table (with the parenthesised member list); an
alias that does not start with `Mutation` — in particular every
`Query<Op>Args` alias — leaves the table untouched; in both cases the
alias still emits its ordinary `type <Name> ...` fragment. -/
theorem visitDecl_args_amended :
    (∀ (st : ExtractState) (n : String) (ann : TSType) (a td : String),
        jsStartsWith n "Mutation" = true → jsEndsWith n "Args" = true →
        generateArgumentsDefinition ann = .ok a →
        generateTypeScriptDefinition ann = .ok td →
        visitDecl st (.typeAlias n ann)
          = .ok ⟨(if td == "" then st.typeDefs
                  else st.typeDefs ++ "type " ++ n ++ " " ++ td ++ "\n"),
                 objSet st.mutationArgs n a⟩)
    ∧ (∀ (st : ExtractState) (n : String) (ann : TSType) (td : String),
        jsStartsWith n "Mutation" = false → (n == "Scalars") = false →
        generateTypeScriptDefinition ann = .ok td →
        visitDecl st (.typeAlias n ann)
          = .ok ⟨(if td == "" then st.typeDefs
                  else st.typeDefs ++ "type " ++ n ++ " " ++ td ++ "\n"),
                 st.mutationArgs⟩)
    ∧ (∀ (members : List TSMember) (parts : List String),
        members.length > 0 →
        members.mapM generateMember = .ok parts →
        generateArgumentsDefinition (.typeLiteral members)
          = .ok ("(" ++ String.intercalate ", " parts ++ ")")) := by
  refine ⟨?_, ?_, ?_⟩
  · intro st n ann a td h1 h2 ha htd
    have hns : (n == "Scalars") = false := by
      cases hbe : (n == "Scalars") with
      | false => rfl
      | true =>
          have hsc : n = "Scalars" := eq_of_beq hbe
          subst hsc
          exact absurd h1 (by decide)
    cases hb : (td == "") with
    | true =>
        have hbe : td = "" := by simpa using hb
        simp [visitDecl.eq_def, h1, h2, ha, hns, htd, hbe, exceptOkBind, exceptPureBind]
    | false =>
        have hbe : ¬(td = "") := by simpa using hb
        simp [visitDecl.eq_def, h1, h2, ha, hns, htd, hbe, exceptOkBind, exceptPureBind]
  · intro st n ann td h1 hns htd
    cases hb : (td == "") with
    | true =>
        have hbe : td = "" := by simpa using hb
        (simp [visitDecl.eq_def, h1, hns, htd, hbe, exceptOkBind, exceptPureBind]; rfl)
    | false =>
        have hbe : ¬(td = "") := by simpa using hb
        (simp [visitDecl.eq_def, h1, hns, htd, hbe, exceptOkBind, exceptPureBind]; rfl)
  · intro members parts hlen hmap
    rw [generateArgumentsDefinition.eq_def]
    dsimp only
    rw [if_pos hlen, hmap]
    rfl

/-- Claim C3 (counterexample): a `QuerygetQArgs` alias is not recorded
into the args table at all, and it does emit a schema-text fragment; a
`MutationdoArgs` alias is recorded but also still emits its fragment. -/
theorem visitDecl_queryArgs_cex :
    visitDecl ⟨"", []⟩ (.typeAlias "QuerygetQArgs"
        (.typeLiteral [.propertySignature (some "a") (some .stringKeyword) false]))
      = .ok ⟨"type QuerygetQArgs \x7b\n  a: String!\n\x7d\n", []⟩
    ∧ ("type QuerygetQArgs \x7b\n  a: String!\n\x7d\n" : String) ≠ ""
    ∧ visitDecl ⟨"", []⟩ (.typeAlias "MutationdoArgs"
        (.typeLiteral [.propertySignature (some "a") (some .stringKeyword) false]))
      = .ok ⟨"type MutationdoArgs \x7b\n  a: String!\n\x7d\n",
             [("MutationdoArgs", "(  a: String!)")]⟩ :=
  ⟨by rfl, by decide, by rfl⟩

/-- Claim C3 (witness): the amended theorem applied to concrete Mutation-
and Query-prefixed aliases. -/
theorem visitDecl_args_amended_witness :
    jsStartsWith "MutationdoArgs" "Mutation" = true
    ∧ jsEndsWith "MutationdoArgs" "Args" = true
    ∧ visitDecl ⟨"", []⟩ (.typeAlias "MutationdoArgs"
        (.typeLiteral [.propertySignature (some "b") (some .numberKeyword) true]))
      = .ok ⟨"type MutationdoArgs \x7b\n  b: Int\n\x7d\n", [("MutationdoArgs", "(  b: Int)")]⟩
    ∧ visitDecl ⟨"", []⟩ (.typeAlias "QuerygoArgs"
        (.typeLiteral [.propertySignature (some "b") (some .numberKeyword) true]))
      = .ok ⟨"type QuerygoArgs \x7b\n  b: Int\n\x7d\n", []⟩ := by
  refine ⟨rfl, rfl, ?_, ?_⟩
  · have h := visitDecl_args_amended.1 ⟨"", []⟩ "MutationdoArgs"
      (.typeLiteral [.propertySignature (some "b") (some .numberKeyword) true])
      "(  b: Int)" "\x7b\n  b: Int\n\x7d" rfl rfl rfl rfl
    simpa using h
  · have h := visitDecl_args_amended.2.1 ⟨"", []⟩ "QuerygoArgs"
      (.typeLiteral [.propertySignature (some "b") (some .numberKeyword) true])
      "\x7b\n  b: Int\n\x7d" rfl rfl rfl
    simpa using h

/-- Claim C9: the pipeline fails with `NoDefinitionsFound` exactly when
the extraction succeeded with an empty blob; that failure writes no
output, and any successfully extracted non-empty blob is handed on to the
parse/rewrite stage. -/
theorem pipeline_noDefinitionsFound_iff :
    ∀ decls : List TSDecl,
      (pipelineBlob decls = .error .noDefinitionsFound
        ↔ ∃ tbl : List (String × String), runExtraction decls = .ok ⟨"", tbl⟩)
      ∧ (pipelineBlob decls = .error .noDefinitionsFound → pipelineOutput decls = none)
      ∧ (∀ st : ExtractState, runExtraction decls = .ok st → st.typeDefs ≠ "" →
          pipelineBlob decls = .ok st.typeDefs) := by
  intro decls
  refine ⟨⟨?_, ?_⟩, ?_, ?_⟩
  · intro he
    cases hx : runExtraction decls with
    | error e => simp [pipelineBlob, hx] at he
    | ok st =>
        obtain ⟨td, tbl⟩ := st
        simp only [pipelineBlob, hx] at he
        by_cases hz : td = ""
        · subst hz
          exact ⟨tbl, rfl⟩
        · rw [if_neg (by simpa using hz)] at he
          cases he
  · rintro ⟨tbl, hx⟩
    simp [pipelineBlob, hx]
  · intro he
    rw [pipelineOutput, he]
    rfl
  · intro st hx hne
    simp [pipelineBlob, hx, hne]

/-- Claim C9 (witness): no declarations at all lead to the
`NoDefinitionsFound` failure with no output, while a single enum
declaration proceeds with its blob. -/
theorem pipeline_noDefinitionsFound_iff_witness :
    pipelineBlob [] = .error .noDefinitionsFound
    ∧ pipelineOutput [] = none
    ∧ pipelineBlob [.enumDecl "Role" ["admin"]] = .ok "enum Role \x7b\nADMIN\n\x7d\n" := by
  have h1 := (pipeline_noDefinitionsFound_iff []).1.mpr ⟨[], rfl⟩
  refine ⟨h1, (pipeline_noDefinitionsFound_iff []).2.1 h1, ?_⟩
  have h3 := (pipeline_noDefinitionsFound_iff [.enumDecl "Role" ["admin"]]).2.2
      ⟨"enum Role \x7b\nADMIN\n\x7d\n", []⟩ rfl (by decide)
  exact h3

end GqlGen

namespace GqlGen

/-- A GraphQL type node as the rewrite pass sees it: `named` is a
`NamedType`, `listT` a `ListType`, `nonNull` a `NonNullType`. -/
inductive GType where
  | named (name : String)
  | listT (t : GType)
  | nonNull (t : GType)
deriving DecidableEq, Repr

/-- A field definition; argument lists reuse the same shape (the code
assigns one definition's `fields` into another field's `arguments`). -/
inductive FieldDef where
  | mk (name : String) (arguments : List FieldDef) (type : GType)

/-- Field name accessor. -/
def FieldDef.name : FieldDef → String
  | .mk n _ _ => n

/-- Field argument-list accessor. -/
def FieldDef.arguments : FieldDef → List FieldDef
  | .mk _ args _ => args

/-- Field type accessor. -/
def FieldDef.type : FieldDef → GType
  | .mk _ _ t => t

/-- Replace a field's argument list (`field.arguments = ...`). -/
def FieldDef.withArguments : FieldDef → List FieldDef → FieldDef
  | .mk n _ t, args => .mk n args t

/-- A top-level definition of the parsed SDL document: `kind` is the
GraphQL AST kind string (`ObjectTypeDefinition`, mutated in place to
`InputObjectTypeDefinition` by reclassification), `name` the definition
name, `fields` its field list (empty for scalars/enums). -/
structure Definition where
  kind : String
  name : String
  fields : List FieldDef

/-- `definitions.find(...)` returning the index of the first match
together with the matched element. -/
def findIdxAndVal (p : Definition → Bool) : List Definition → Option (Nat × Definition)
  | [] => none
  | d :: ds =>
      if p d then some (0, d)
      else (findIdxAndVal p ds).map (fun iv => (iv.1 + 1, iv.2))

/-- The predicate `def.kind === 'ObjectTypeDefinition' && def.name.value === n`. -/
def isObjNamed (n : String) (d : Definition) : Bool :=
  d.kind == "ObjectTypeDefinition" && d.name == n

/-- Stage 1 of the rewrite (src/main.js lines 342-347): splice the first
`ObjectTypeDefinition` named `Query` out of the sequence and push it to
the end. -/
def reposition (defs : List Definition) : List Definition :=
  match findIdxAndVal (isObjNamed "Query") defs with
  | none => defs
  | some (i, q) => defs.eraseIdx i ++ [q]

/-- JS `arg.type.type`: the child of a wrapping type node; a `NamedType`
has no `.type` property. -/
def typeChild : GType → Option GType
  | .named _ => none
  | .listT t => some t
  | .nonNull t => some t

/-- JS `.name.value` on an optional type node: only a `NamedType` has a
`.name`. -/
def childName : Option GType → Option String
  | some (.named n) => some n
  | _ => none

/-- Mutate `kind` of the definition at index `j` to
`InputObjectTypeDefinition`. -/
def setKindInput : List Definition → Nat → List Definition
  | [], _ => []
  | d :: ds, 0 => { d with kind := "InputObjectTypeDefinition" } :: ds
  | d :: ds, j + 1 => d :: setKindInput ds j

/-- One reclassification step (src/main.js lines 358-363): find the first
`ObjectTypeDefinition` whose name equals `arg.type.type.name.value`
(guarded: a bare named type or a doubly wrapped type yields no name) and
flip its kind to input. -/
def reclassifyArg (defs : List Definition) (argType : GType) : List Definition :=
  match childName (typeChild argType) with
  | none => defs
  | some n =>
      match findIdxAndVal (isObjNamed n) defs with
      | none => defs
      | some (j, _) => setKindInput defs j

/-- Replace the argument list of field number `k` in a field list. -/
def setListField : List FieldDef → Nat → List FieldDef → List FieldDef
  | [], _, _ => []
  | f :: fs, 0, args => f.withArguments args :: fs
  | f :: fs, k + 1, args => f :: setListField fs k args

/-- Apply an update to the definition at index `i`. -/
def modifyDef : List Definition → Nat → (Definition → Definition) → List Definition
  | [], _, _ => []
  | d :: ds, 0, g => g d :: ds
  | d :: ds, i + 1, g => d :: modifyDef ds i g

/-- `field.arguments = argsDef.fields` on the operation definition at
index `i`, field number `k`. -/
def setFieldArgs (defs : List Definition) (i k : Nat) (args : List FieldDef) : List Definition :=
  modifyDef defs i (fun d => { d with fields := setListField d.fields k args })

/-- Process one operation field (the body of the `forEach` at
src/main.js lines 352-365 / 371-384): look up
`<pre><fieldName>Args` case-insensitively among the current
`ObjectTypeDefinition`s; when found, replace the field's argument list
with that definition's fields and reclassify every argument's named
target type. -/
def bindField (pre : String) (opIdx : Nat) (defs : List Definition) (fieldIdx : Nat) :
    List Definition :=
  match defs.get? opIdx with
  | none => defs
  | some op =>
      match op.fields.get? fieldIdx with
      | none => defs
      | some f =>
          let key := jsToLowerCase (pre ++ f.name ++ "Args")
          match findIdxAndVal
              (fun d => d.kind == "ObjectTypeDefinition" && jsToLowerCase d.name == key) defs with
          | none => defs
          | some (_, argsDef) =>
              let defs1 := setFieldArgs defs opIdx fieldIdx argsDef.fields
              argsDef.fields.foldl (fun acc a => reclassifyArg acc a.type) defs1

/-- One whole binding pass: find the operation `ObjectTypeDefinition`
named `op` and process each of its fields in order. -/
def bindOp (pre op : String) (defs : List Definition) : List Definition :=
  match findIdxAndVal (isObjNamed op) defs with
  | none => defs
  | some (i, opDef) => (List.range opDef.fields.length).foldl (bindField pre i) defs

/-- `p.isPrefixOf`-based scan: does the character list contain `p` as a
contiguous sublist? -/
def hasSub (p : List Char) : List Char → Bool
  | [] => p.isEmpty
  | c :: t => p.isPrefixOf (c :: t) || hasSub p t

/-- Unanchored regex `/pre.*suf/` on a character list: some occurrence of
`pre` is followed (anywhere later) by an occurrence of `suf`. -/
def matchDotStarL (pre suf : List Char) : List Char → Bool
  | [] => pre.isEmpty && suf.isEmpty
  | c :: t =>
      (pre.isPrefixOf (c :: t) && hasSub suf ((c :: t).drop pre.length))
        || matchDotStarL pre suf t

/-- Unanchored regex `/pre.*suf/` test on a string. -/
def matchDotStar (pre suf s : String) : Bool :=
  matchDotStarL pre.data suf.data s.data

/-- The prune predicate of the second copy (src/main.js line 392): keep a
name iff it matches neither `/Mutation.*Args/` nor `/Query.*Args/`. -/
def keepName2 (n : String) : Bool :=
  !(matchDotStar "Mutation" "Args" n) && !(matchDotStar "Query" "Args" n)

/-- The prune predicate of the first copy (src/main.js line 119): keep a
name iff it matches neither `/Mutation.*Arg/` nor `/Query.*Arg/`. -/
def keepName1 (n : String) : Bool :=
  !(matchDotStar "Mutation" "Arg" n) && !(matchDotStar "Query" "Arg" n)

/-- Stage 4 of the rewrite, copy 2: drop every definition whose name
matches either pattern. -/
def pruneDefs (defs : List Definition) : List Definition :=
  defs.filter (fun d => keepName2 d.name)

/-- The prune filter of copy 1 (patterns `Arg`, not `Args`). -/
def pruneDefsCopy1 (defs : List Definition) : List Definition :=
  defs.filter (fun d => keepName1 d.name)

/-- The whole Schema Rewriter, second copy (src/main.js lines 342-393):
reposition `Query`, bind `Query` arguments, bind `Mutation` arguments,
prune `*Args` definitions. -/
def rewriteDoc (defs : List Definition) : List Definition :=
  pruneDefs (bindOp "Mutation" "Mutation" (bindOp "Query" "Query" (reposition defs)))

/-- A whole name of the form `Mutation<Identifier>Args` or
`Query<Identifier>Args` with a non-empty identifier. -/
def wholeArgsName (s : String) : Bool :=
  (jsStartsWith s "Mutation" && jsEndsWith s "Args" && decide (12 < s.length))
    || (jsStartsWith s "Query" && jsEndsWith s "Args" && decide (9 < s.length))

end GqlGen

namespace GqlGen

/-- Claim C10: both prune filters are unanchored substring tests — every
name containing the respective pattern is removed, which is strictly more
than the whole-name `Mutation<Identifier>Args` / `Query<Identifier>Args`
matches: copy 1 (`/Mutation.*Arg/`, `/Query.*Arg/`) deletes user types
`MutationsArg` and `MyQueryExtraArgsType`; copy 2 (`/Mutation.*Args/`,
`/Query.*Args/`) deletes `MyQueryExtraArgsType`; neither name is a
whole-pattern match. -/
theorem prune_unanchored :
    (∀ (defs : List Definition) (d : Definition),
        (matchDotStar "Mutation" "Arg" d.name || matchDotStar "Query" "Arg" d.name) = true →
        d ∉ pruneDefsCopy1 defs)
    ∧ (∀ (defs : List Definition) (d : Definition),
        (matchDotStar "Mutation" "Args" d.name || matchDotStar "Query" "Args" d.name) = true →
        d ∉ pruneDefs defs)
    ∧ pruneDefsCopy1 [⟨"ObjectTypeDefinition", "MutationsArg", []⟩,
        ⟨"ObjectTypeDefinition", "MyQueryExtraArgsType", []⟩, ⟨"ObjectTypeDefinition", "User", []⟩]
        = [⟨"ObjectTypeDefinition", "User", []⟩]
    ∧ pruneDefs [⟨"ObjectTypeDefinition", "MutationsArg", []⟩,
        ⟨"ObjectTypeDefinition", "MyQueryExtraArgsType", []⟩, ⟨"ObjectTypeDefinition", "User", []⟩]
        = [⟨"ObjectTypeDefinition", "MutationsArg", []⟩, ⟨"ObjectTypeDefinition", "User", []⟩]
    ∧ wholeArgsName "MutationsArg" = false
    ∧ wholeArgsName "MyQueryExtraArgsType" = false := by
  refine ⟨?_, ?_, rfl, rfl, rfl, rfl⟩
  · intro defs d hp hmem
    have h2 := (List.mem_filter.mp hmem).2
    simp only [keepName1, Bool.and_eq_true, Bool.not_eq_true'] at h2
    rw [h2.1, h2.2] at hp
    exact absurd hp (by simp)
  · intro defs d hp hmem
    have h2 := (List.mem_filter.mp hmem).2
    simp only [keepName2, Bool.and_eq_true, Bool.not_eq_true'] at h2
    rw [h2.1, h2.2] at hp
    exact absurd hp (by simp)

/-- Claim C10 (witness): the removal statements applied to concrete
documents and names. -/
theorem prune_unanchored_witness :
    (matchDotStar "Mutation" "Arg" "MutationsArg" || matchDotStar "Query" "Arg" "MutationsArg") = true
    ∧ (⟨"ObjectTypeDefinition", "MutationsArg", []⟩ : Definition)
        ∉ pruneDefsCopy1 [⟨"ObjectTypeDefinition", "MutationsArg", []⟩]
    ∧ (matchDotStar "Mutation" "Args" "MyQueryExtraArgsType"
        || matchDotStar "Query" "Args" "MyQueryExtraArgsType") = true
    ∧ (⟨"ObjectTypeDefinition", "MyQueryExtraArgsType", []⟩ : Definition)
        ∉ pruneDefs [⟨"ObjectTypeDefinition", "MyQueryExtraArgsType", []⟩] :=
  ⟨rfl,
   prune_unanchored.1 _ _ rfl,
   rfl,
   prune_unanchored.2.1 _ _ rfl⟩

/-- Claim C2 (counterexample): with both operation types present the
output need not end `Query, Mutation`: from `[Mutation, User, Query]` the
rewriter produces `[Mutation, User, Query]` — Mutation stays first and is
not adjacent to Query. -/
theorem rewrite_last_two_cex :
    (rewriteDoc [⟨"ObjectTypeDefinition", "Mutation", []⟩,
        ⟨"ObjectTypeDefinition", "User", []⟩,
        ⟨"ObjectTypeDefinition", "Query", []⟩]).map Definition.name
      = ["Mutation", "User", "Query"]
    ∧ ["Mutation", "User", "Query"].drop 1 ≠ ["Query", "Mutation"] :=
  ⟨rfl, by decide⟩

/-- Claim C1 (counterexample): an argument whose declared type is a bare
(nullable) named type referencing the object type `Address` does get
bound, yet `Address` stays an `ObjectTypeDefinition` in the output — the
reclassification guard `arg.type.type && arg.type.type.name` skips it. -/
theorem reclassify_nullability_cex :
    rewriteDoc
        [⟨"ObjectTypeDefinition", "Address", [.mk "street" [] (.named "String")]⟩,
         ⟨"ObjectTypeDefinition", "QueryfooArgs", [.mk "a" [] (.named "Address")]⟩,
         ⟨"ObjectTypeDefinition", "Query", [.mk "foo" [] (.named "Address")]⟩]
      = [⟨"ObjectTypeDefinition", "Address", [.mk "street" [] (.named "String")]⟩,
         ⟨"ObjectTypeDefinition", "Query",
            [.mk "foo" [.mk "a" [] (.named "Address")] (.named "Address")]⟩]
    ∧ ("ObjectTypeDefinition" : String) ≠ "InputObjectTypeDefinition" :=
  ⟨rfl, by decide⟩

/-- The document of the idempotence counterexample: two args definitions
that collide case-insensitively, one of which survives the case-sensitive
prune. -/
def idemCexDoc : List Definition :=
  [⟨"ObjectTypeDefinition", "MutationFooArgs", [.mk "a" [] (.nonNull (.named "Int"))]⟩,
   ⟨"ObjectTypeDefinition", "Mutationfooargs", [.mk "b" [] (.nonNull (.named "String"))]⟩,
   ⟨"ObjectTypeDefinition", "Mutation", [.mk "Foo" [] (.named "X")]⟩]

/-- Argument-name projection used to separate the two runs of the
idempotence counterexample. -/
def docArgNames (defs : List Definition) : List (List (List String)) :=
  defs.map (fun d => d.fields.map (fun f => f.arguments.map FieldDef.name))

/-- Claim C4 (counterexample): the first run binds `Mutation.Foo` to
`MutationFooArgs` and prunes it, but `Mutationfooargs` (lower-case `args`)
survives the case-sensitive prune while still matching the
case-insensitive bind, so the second run rebinds `Mutation.Foo` to a
different argument list: the output contains no whole-name
`Mutation<Identifier>Args` / `Query<Identifier>Args` definition, yet the
rewrite is not idempotent on it. -/
theorem rewrite_idempotence_cex :
    (rewriteDoc idemCexDoc).all (fun d => !wholeArgsName d.name) = true
    ∧ rewriteDoc (rewriteDoc idemCexDoc) ≠ rewriteDoc idemCexDoc :=
  ⟨rfl, fun h => absurd (congrArg docArgNames h) (by decide)⟩

end GqlGen

namespace GqlGen

/-- Specification of `findIdxAndVal`: a hit satisfies the predicate and
sits at the returned index. -/
theorem findIdxAndVal_some (p : Definition → Bool) :
    ∀ (l : List Definition) (i : Nat) (v : Definition),
      findIdxAndVal p l = some (i, v) → p v = true ∧ l.get? i = some v := by
  intro l
  induction l with
  | nil => intro i v h; cases h
  | cons d ds ih =>
      intro i v h
      rw [findIdxAndVal] at h
      by_cases hd : p d = true
      · rw [if_pos hd] at h
        cases h
        exact ⟨hd, rfl⟩
      · rw [if_neg hd] at h
        cases hf : findIdxAndVal p ds with
        | none => rw [hf] at h; cases h
        | some jv =>
            rw [hf] at h
            cases h
            obtain ⟨h1, h2⟩ := ih jv.1 jv.2 (by rw [hf])
            exact ⟨h1, h2⟩

/-- `find` misses when the predicate holds nowhere. -/
theorem findIdxAndVal_none (p : Definition → Bool) :
    ∀ l : List Definition, (∀ d ∈ l, p d = false) → findIdxAndVal p l = none := by
  intro l
  induction l with
  | nil => intro _; rfl
  | cons d ds ih =>
      intro h
      rw [findIdxAndVal, if_neg (by rw [h d (by simp)]; exact Bool.false_ne_true),
          ih (fun x hx => h x (by simp [hx]))]
      rfl

/-- Reclassification changes no definition names. -/
theorem setKindInput_map_name :
    ∀ (l : List Definition) (j : Nat),
      (setKindInput l j).map Definition.name = l.map Definition.name := by
  intro l
  induction l with
  | nil => intro j; rfl
  | cons d ds ih =>
      intro j
      cases j with
      | zero => rfl
      | succ j => simp [setKindInput, ih j]

/-- A name-preserving in-place update changes no definition names. -/
theorem modifyDef_map_name (g : Definition → Definition) (hg : ∀ d, (g d).name = d.name) :
    ∀ (l : List Definition) (i : Nat),
      (modifyDef l i g).map Definition.name = l.map Definition.name := by
  intro l
  induction l with
  | nil => intro i; rfl
  | cons d ds ih =>
      intro i
      cases i with
      | zero => simp [modifyDef, hg d]
      | succ i => simp [modifyDef, ih i]

/-- One reclassification step changes no definition names. -/
theorem reclassifyArg_map_name (l : List Definition) (t : GType) :
    (reclassifyArg l t).map Definition.name = l.map Definition.name := by
  rw [reclassifyArg]
  cases childName (typeChild t) with
  | none => rfl
  | some n =>
      dsimp only
      cases findIdxAndVal (isObjNamed n) l with
      | none => rfl
      | some jv => exact setKindInput_map_name l jv.1

/-- The whole reclassification fold changes no definition names. -/
theorem reclassifyFold_map_name :
    ∀ (args : List FieldDef) (l : List Definition),
      ((args.foldl (fun acc a => reclassifyArg acc a.type) l)).map Definition.name
        = l.map Definition.name := by
  intro args
  induction args with
  | nil => intro l; rfl
  | cons a rest ih =>
      intro l
      rw [List.foldl_cons, ih, reclassifyArg_map_name]

/-- Binding one operation field changes no definition names. -/
theorem bindField_map_name (pre : String) (i : Nat) (l : List Definition) (k : Nat) :
    (bindField pre i l k).map Definition.name = l.map Definition.name := by
  rw [bindField]
  cases l.get? i with
  | none => rfl
  | some op =>
      dsimp only
      cases op.fields.get? k with
      | none => rfl
      | some f =>
          dsimp only
          cases findIdxAndVal
              (fun d => d.kind == "ObjectTypeDefinition"
                && jsToLowerCase d.name == jsToLowerCase (pre ++ f.name ++ "Args")) l with
          | none => rfl
          | some jv =>
              dsimp only
              rw [reclassifyFold_map_name, setFieldArgs]
              exact modifyDef_map_name
                (fun d => { d with fields := setListField d.fields k jv.2.fields })
                (fun d => rfl) l i

/-- A whole binding pass changes no definition names (and hence no
order and no length). -/
theorem bindOp_map_name (pre op : String) (l : List Definition) :
    (bindOp pre op l).map Definition.name = l.map Definition.name := by
  rw [bindOp]
  cases findIdxAndVal (isObjNamed op) l with
  | none => rfl
  | some iv =>
      dsimp only
      generalize List.range iv.2.fields.length = ks
      induction ks generalizing l with
      | nil => rfl
      | cons k ks ih => rw [List.foldl_cons, ih (bindField pre iv.1 l k), bindField_map_name]

/-- Pruning acts on the name sequence as a plain filter. -/
theorem pruneDefs_map_name (l : List Definition) :
    (pruneDefs l).map Definition.name = (l.map Definition.name).filter keepName2 := by
  induction l with
  | nil => rfl
  | cons d ds ih =>
      rw [pruneDefs, List.filter_cons]
      cases hk : keepName2 d.name with
      | false => simp [hk, pruneDefs] at ih ⊢; exact ih
      | true => simp [hk, pruneDefs] at ih ⊢; exact ih

/-- Claim C2 (amended): when a `Query` object type exists, the first one
is moved to the very end, so `Query` is the *last* definition of the
output; every other definition — `Mutation` included — keeps its relative
order, subject only to the name-based prune; with no `Query` object type
nothing is repositioned.  Nothing places `Mutation` next to `Query`. -/
theorem rewrite_query_reposition_amended :
    (∀ (defs : List Definition) (i : Nat) (q : Definition),
        findIdxAndVal (isObjNamed "Query") defs = some (i, q) →
        (rewriteDoc defs).map Definition.name
          = ((defs.eraseIdx i).map Definition.name).filter keepName2 ++ ["Query"])
    ∧ (∀ defs : List Definition,
        findIdxAndVal (isObjNamed "Query") defs = none →
        (rewriteDoc defs).map Definition.name = (defs.map Definition.name).filter keepName2) := by
  constructor
  · intro defs i q h
    have hq : q.name = "Query" := by
      have h2 := (findIdxAndVal_some _ defs i q h).1
      rw [isObjNamed, Bool.and_eq_true] at h2
      exact eq_of_beq h2.2
    rw [rewriteDoc, reposition, h]
    dsimp only
    rw [pruneDefs_map_name, bindOp_map_name, bindOp_map_name, List.map_append,
        List.filter_append]
    simp only [List.map_cons, List.map_nil, hq]
    simp +decide [List.filter_cons, List.filter_nil]
  · intro defs h
    rw [rewriteDoc, reposition, h]
    rw [pruneDefs_map_name, bindOp_map_name, bindOp_map_name]

/-- Claim C2 (witness): the amended theorem applied to a concrete
two-definition document. -/
theorem rewrite_query_reposition_amended_witness :
    findIdxAndVal (isObjNamed "Query")
        [⟨"ObjectTypeDefinition", "User", []⟩, ⟨"ObjectTypeDefinition", "Query", []⟩]
      = some (1, ⟨"ObjectTypeDefinition", "Query", []⟩)
    ∧ (rewriteDoc [⟨"ObjectTypeDefinition", "User", []⟩,
          ⟨"ObjectTypeDefinition", "Query", []⟩]).map Definition.name
      = ((([⟨"ObjectTypeDefinition", "User", []⟩,
            ⟨"ObjectTypeDefinition", "Query", []⟩] : List Definition).eraseIdx 1).map
          Definition.name).filter keepName2 ++ ["Query"] :=
  ⟨rfl, rewrite_query_reposition_amended.1 _ 1 _ rfl⟩

/-- Stage-2/3 no-op condition: the operation type is absent, or no
current `ObjectTypeDefinition` case-insensitively matches
`<pre><fieldName>Args` for any of its fields. -/
def bindBlocked (pre op : String) (defs : List Definition) : Bool :=
  match findIdxAndVal (isObjNamed op) defs with
  | none => true
  | some (_, opDef) =>
      opDef.fields.all (fun f =>
        defs.all (fun d =>
          !(d.kind == "ObjectTypeDefinition"
            && jsToLowerCase d.name == jsToLowerCase (pre ++ f.name ++ "Args"))))

/-- Stage-1 no-op condition: no `Query` object type, or the first one is
already the last definition. -/
def queryRepositionStable (defs : List Definition) : Bool :=
  match findIdxAndVal (isObjNamed "Query") defs with
  | none => true
  | some (i, _) => i + 1 == defs.length

/-- Stage-4 no-op condition: no definition name matches either prune
pattern. -/
def pruneStable (defs : List Definition) : Bool :=
  defs.all (fun d => keepName2 d.name)

/-- All four rewrite stages are no-ops on the document. -/
def rewriteStable (defs : List Definition) : Bool :=
  queryRepositionStable defs && bindBlocked "Query" "Query" defs
    && bindBlocked "Mutation" "Mutation" defs && pruneStable defs

/-- Splicing out the last element and appending it back is the
identity. -/
theorem eraseIdx_last_append :
    ∀ (l : List Definition) (i : Nat) (v : Definition),
      l.get? i = some v → i + 1 = l.length → l.eraseIdx i ++ [v] = l := by
  intro l
  induction l with
  | nil => intro i v h _; cases h
  | cons d ds ih =>
      intro i v h hlen
      cases i with
      | zero =>
          cases h
          cases ds with
          | nil => rfl
          | cons e es => simp at hlen
      | succ i =>
          simp only [List.length_cons, Nat.succ_eq_add_one] at hlen
          have := ih i v h (by omega)
          simp [List.eraseIdx, this]

/-- The reposition stage is the identity on a stable document. -/
theorem reposition_stable (defs : List Definition)
    (h : queryRepositionStable defs = true) : reposition defs = defs := by
  rw [queryRepositionStable] at h
  rw [reposition]
  cases hf : findIdxAndVal (isObjNamed "Query") defs with
  | none => rfl
  | some iv =>
      rw [hf] at h
      dsimp only at h ⊢
      exact eraseIdx_last_append defs iv.1 iv.2
        ((findIdxAndVal_some _ defs iv.1 iv.2 (by rw [hf])).2)
        (eq_of_beq h)

/-- A fold whose steps fix the accumulator fixes the accumulator. -/
theorem foldl_const_nat (f : List Definition → Nat → List Definition)
    (a : List Definition) :
    ∀ ks : List Nat, (∀ k ∈ ks, f a k = a) → ks.foldl f a = a := by
  intro ks
  induction ks with
  | nil => intro _; rfl
  | cons k ks ih =>
      intro h
      rw [List.foldl_cons, h k (by simp)]
      exact ih (fun x hx => h x (by simp [hx]))

/-- A blocked binding pass is the identity. -/
theorem bindOp_stable (pre op : String) (defs : List Definition)
    (h : bindBlocked pre op defs = true) : bindOp pre op defs = defs := by
  rw [bindBlocked] at h
  rw [bindOp]
  cases hf : findIdxAndVal (isObjNamed op) defs with
  | none => rfl
  | some iv =>
      rw [hf] at h
      dsimp only at h ⊢
      have hgi : defs.get? iv.1 = some iv.2 :=
        (findIdxAndVal_some _ defs iv.1 iv.2 (by rw [hf])).2
      apply foldl_const_nat
      intro k hk
      rw [bindField, hgi]
      dsimp only
      cases hgf : iv.2.fields.get? k with
      | none => rfl
      | some f =>
          dsimp only
          have hfmem : f ∈ iv.2.fields := List.get?_mem hgf
          have hall := (List.all_eq_true.mp h) f hfmem
          have hnone :
              findIdxAndVal
                (fun d => d.kind == "ObjectTypeDefinition"
                  && jsToLowerCase d.name == jsToLowerCase (pre ++ f.name ++ "Args")) defs
                = none := by
            apply findIdxAndVal_none
            intro d hd
            have hx := (List.all_eq_true.mp hall) d hd
            rwa [Bool.not_eq_true'] at hx
          rw [hnone]

/-- A prune over pattern-free names is the identity. -/
theorem pruneDefs_stable (defs : List Definition)
    (h : pruneStable defs = true) : pruneDefs defs = defs := by
  rw [pruneDefs]
  exact List.filter_eq_self.mpr (List.all_eq_true.mp h)

/-- The whole rewrite is the identity on a stable document. -/
theorem rewriteDoc_stable (defs : List Definition)
    (h : rewriteStable defs = true) : rewriteDoc defs = defs := by
  rw [rewriteStable, Bool.and_eq_true, Bool.and_eq_true, Bool.and_eq_true] at h
  obtain ⟨⟨⟨h1, h2⟩, h3⟩, h4⟩ := h
  rw [rewriteDoc, reposition_stable defs h1, bindOp_stable _ _ _ h2,
      bindOp_stable _ _ _ h3, pruneDefs_stable defs h4]

/-- Claim C4 (amended): a second run of the rewriter on its own output is
the identity provided the output is stable: its first `Query` object type
(if any) is already last, no definition can still be bound
case-insensitively as a `<Op><field>Args` source for a `Query`/`Mutation`
field, and no name matches the prune patterns.  The prune condition holds
automatically on every rewriter output; the case-insensitive bind
condition does not (see the counterexample). -/
theorem rewrite_idempotent_amended :
    (∀ defs : List Definition, rewriteStable (rewriteDoc defs) = true →
        rewriteDoc (rewriteDoc defs) = rewriteDoc defs)
    ∧ (∀ defs : List Definition, pruneStable (rewriteDoc defs) = true) := by
  constructor
  · intro defs h
    exact rewriteDoc_stable _ h
  · intro defs
    rw [pruneStable, List.all_eq_true]
    intro d hd
    rw [rewriteDoc, pruneDefs] at hd
    exact (List.mem_filter.mp hd).2

/-- A small already-stable rewriter output used as the idempotence
witness. -/
def idemWitnessDoc : List Definition :=
  [⟨"ObjectTypeDefinition", "Query", [.mk "u" [] (.named "User")]⟩,
   ⟨"ObjectTypeDefinition", "User", []⟩]

/-- Claim C4 (witness): the amended idempotence applied to a concrete
document. -/
theorem rewrite_idempotent_amended_witness :
    rewriteStable (rewriteDoc idemWitnessDoc) = true
    ∧ rewriteDoc (rewriteDoc idemWitnessDoc) = rewriteDoc idemWitnessDoc :=
  ⟨rfl, rewrite_idempotent_amended.1 idemWitnessDoc rfl⟩

end GqlGen

namespace GqlGen

/-- A kind string known not to be `ObjectTypeDefinition` but drawn from
the object/input pair must be `InputObjectTypeDefinition`. -/
theorem kind_input_of_not_obj (kA : String) (h : (kA == "ObjectTypeDefinition") = false)
    (hd : kA = "ObjectTypeDefinition" ∨ kA = "InputObjectTypeDefinition") :
    kA = "InputObjectTypeDefinition" := by
  cases hd with
  | inl he => subst he; exact absurd h (by decide)
  | inr he => exact he

/-- One reclassification step on a three-definition document: names and
field lists never change, an `InputObjectTypeDefinition` kind at the head
is preserved, and an argument whose one-level-wrapped type names the head
definition forces the head kind to `InputObjectTypeDefinition`. -/
theorem reclassify_step_shape (n gN oN : String) (F G H : List FieldDef)
    (t : GType) (kA kB kC : String) :
    ∃ kA2 kB2 kC2,
      reclassifyArg [⟨kA, n, F⟩, ⟨kB, gN, G⟩, ⟨kC, oN, H⟩] t
        = [⟨kA2, n, F⟩, ⟨kB2, gN, G⟩, ⟨kC2, oN, H⟩]
      ∧ (kA = "InputObjectTypeDefinition" → kA2 = "InputObjectTypeDefinition")
      ∧ (childName (typeChild t) = some n →
          (kA = "ObjectTypeDefinition" ∨ kA = "InputObjectTypeDefinition") →
          kA2 = "InputObjectTypeDefinition")
      ∧ ((kA = "ObjectTypeDefinition" ∨ kA = "InputObjectTypeDefinition") →
          (kA2 = "ObjectTypeDefinition" ∨ kA2 = "InputObjectTypeDefinition")) := by
  cases hcn : childName (typeChild t) with
  | none =>
      refine ⟨kA, kB, kC, ?_, fun h => h, ?_, fun h => h⟩
      · rw [reclassifyArg, hcn]
      · intro hsome _
        exact Option.noConfusion hsome
  | some m =>
      simp only [reclassifyArg, hcn]
      cases hA : isObjNamed m ⟨kA, n, F⟩ with
      | true =>
          refine ⟨"InputObjectTypeDefinition", kB, kC, ?_, fun _ => rfl, fun _ _ => rfl,
            fun _ => Or.inr rfl⟩
          simp [findIdxAndVal, hA, setKindInput]
      | false =>
          have hObjFalse : m = n → (kA == "ObjectTypeDefinition") = false := by
            intro hmn
            subst hmn
            rw [isObjNamed] at hA
            simpa using hA
          cases hB : isObjNamed m ⟨kB, gN, G⟩ with
          | true =>
              refine ⟨kA, "InputObjectTypeDefinition", kC, ?_, fun h => h, ?_, fun h => h⟩
              · simp [findIdxAndVal, hA, hB, setKindInput]
              · intro hsome hdisj
                have hmn : m = n := by injection hsome
                exact kind_input_of_not_obj kA (hObjFalse hmn) hdisj
          | false =>
              cases hC : isObjNamed m ⟨kC, oN, H⟩ with
              | true =>
                  refine ⟨kA, kB, "InputObjectTypeDefinition", ?_, fun h => h, ?_, fun h => h⟩
                  · simp [findIdxAndVal, hA, hB, hC, setKindInput]
                  · intro hsome hdisj
                    have hmn : m = n := by injection hsome
                    exact kind_input_of_not_obj kA (hObjFalse hmn) hdisj
              | false =>
                  refine ⟨kA, kB, kC, ?_, fun h => h, ?_, fun h => h⟩
                  · simp [findIdxAndVal, hA, hB, hC]
                  · intro hsome hdisj
                    have hmn : m = n := by injection hsome
                    exact kind_input_of_not_obj kA (hObjFalse hmn) hdisj

end GqlGen

namespace GqlGen

/-- The reclassification fold over a whole bound argument list, with the
same shape guarantees as the single step; any argument hitting the head
definition leaves it reclassified at the end of the fold. -/
theorem reclassify_fold_shape (n gN oN : String) (F G H : List FieldDef) :
    ∀ (args : List FieldDef) (kA kB kC : String),
      (kA = "ObjectTypeDefinition" ∨ kA = "InputObjectTypeDefinition") →
      ∃ kA2 kB2 kC2,
        args.foldl (fun acc a => reclassifyArg acc a.type)
            [⟨kA, n, F⟩, ⟨kB, gN, G⟩, ⟨kC, oN, H⟩]
          = [⟨kA2, n, F⟩, ⟨kB2, gN, G⟩, ⟨kC2, oN, H⟩]
        ∧ (kA2 = "ObjectTypeDefinition" ∨ kA2 = "InputObjectTypeDefinition")
        ∧ ((∃ a ∈ args, childName (typeChild a.type) = some n) →
            kA2 = "InputObjectTypeDefinition")
        ∧ (kA = "InputObjectTypeDefinition" → kA2 = "InputObjectTypeDefinition") := by
  intro args
  induction args with
  | nil =>
      intro kA kB kC hdisj
      refine ⟨kA, kB, kC, rfl, hdisj, ?_, fun h => h⟩
      rintro ⟨a, ha, _⟩
      cases ha
  | cons a rest ih =>
      intro kA kB kC hdisj
      obtain ⟨kA1, kB1, kC1, hstep, hkeep1, hhit1, hdisj1⟩ :=
        reclassify_step_shape n gN oN F G H a.type kA kB kC
      obtain ⟨kA2, kB2, kC2, hfold, hdisj2, hhit2, hkeep2⟩ :=
        ih kA1 kB1 kC1 (hdisj1 hdisj)
      refine ⟨kA2, kB2, kC2, ?_, hdisj2, ?_, ?_⟩
      · rw [List.foldl_cons, hstep, hfold]
      · rintro ⟨w, hw, hwt⟩
        rcases List.mem_cons.mp hw with hwa | hwrest
        · subst hwa
          exact hkeep2 (hhit1 hwt hdisj)
        · exact hhit2 ⟨w, hwrest, hwt⟩
      · intro hinp
        exact hkeep2 (hkeep1 hinp)

end GqlGen

namespace GqlGen

/-- A binding pass over a three-definition document `[target, argsDef,
opDef]` in which the operation has one field whose `<pre><field>Args`
lookup resolves to `argsDef`: the field's argument list is replaced by
`argsDef`'s fields and the target definition (named by some argument's
one-level-wrapped type) ends up reclassified. -/
theorem bindOp_three (pre opN argsN fld n : String) (F G oldArgs : List FieldDef) (t0 : GType)
    (hn_op : (n == opN) = false)
    (hn_key : (jsToLowerCase n == jsToLowerCase (pre ++ fld ++ "Args")) = false)
    (hargs_op : (argsN == opN) = false)
    (hargs_key : (jsToLowerCase argsN == jsToLowerCase (pre ++ fld ++ "Args")) = true)
    (hhit : ∃ a ∈ G, childName (typeChild a.type) = some n) :
    ∃ kA2 kB2 kC2,
      bindOp pre opN
          [⟨"ObjectTypeDefinition", n, F⟩, ⟨"ObjectTypeDefinition", argsN, G⟩,
           ⟨"ObjectTypeDefinition", opN, [.mk fld oldArgs t0]⟩]
        = [⟨kA2, n, F⟩, ⟨kB2, argsN, G⟩, ⟨kC2, opN, [.mk fld G t0]⟩]
      ∧ kA2 = "InputObjectTypeDefinition" := by
  have hfind1 : findIdxAndVal (isObjNamed opN)
      [⟨"ObjectTypeDefinition", n, F⟩, ⟨"ObjectTypeDefinition", argsN, G⟩,
       ⟨"ObjectTypeDefinition", opN, [.mk fld oldArgs t0]⟩]
      = some (2, ⟨"ObjectTypeDefinition", opN, [.mk fld oldArgs t0]⟩) := by
    simp +decide [findIdxAndVal, isObjNamed, hn_op, hargs_op]
  rw [bindOp, hfind1]
  dsimp only
  rw [show List.range [FieldDef.mk fld oldArgs t0].length = [0] from rfl,
      List.foldl_cons, List.foldl_nil, bindField]
  simp only [List.get?, FieldDef.name]
  have hfind2 : findIdxAndVal
      (fun d => d.kind == "ObjectTypeDefinition"
        && jsToLowerCase d.name == jsToLowerCase (pre ++ fld ++ "Args"))
      [⟨"ObjectTypeDefinition", n, F⟩, ⟨"ObjectTypeDefinition", argsN, G⟩,
       ⟨"ObjectTypeDefinition", opN, [.mk fld oldArgs t0]⟩]
      = some (1, ⟨"ObjectTypeDefinition", argsN, G⟩) := by
    simp +decide [findIdxAndVal, hn_key, hargs_key]
  rw [hfind2]
  dsimp only
  have hset : setFieldArgs
      [⟨"ObjectTypeDefinition", n, F⟩, ⟨"ObjectTypeDefinition", argsN, G⟩,
       ⟨"ObjectTypeDefinition", opN, [.mk fld oldArgs t0]⟩] 2 0 G
      = [⟨"ObjectTypeDefinition", n, F⟩, ⟨"ObjectTypeDefinition", argsN, G⟩,
         ⟨"ObjectTypeDefinition", opN, [.mk fld G t0]⟩] := by
    simp [setFieldArgs, modifyDef, setListField, FieldDef.withArguments]
  rw [hset]
  obtain ⟨kA2, kB2, kC2, hfold, _, hhit2, _⟩ :=
    reclassify_fold_shape n argsN opN F G [.mk fld G t0] G
      "ObjectTypeDefinition" "ObjectTypeDefinition" "ObjectTypeDefinition" (Or.inl rfl)
  exact ⟨kA2, kB2, kC2, hfold, hhit2 hhit⟩

end GqlGen

namespace GqlGen

set_option maxHeartbeats 1000000 in
/-- Claim C1 (amended): after the full rewrite, an `ObjectType` that is
referenced through a one-level wrapping (non-null named type or list of a
named type, the shapes whose inner name `arg.type.type.name.value` can
read) by some argument of a bound argument list is reclassified to
`InputObjectTypeDefinition` carrying its original field list — for the
Query pass and the Mutation pass alike; a bare nullable named argument
type never triggers reclassification (see the counterexample). -/
theorem rewrite_reclassify_amended :
    ∀ (n : String) (F G oldArgs : List FieldDef) (t0 : GType),
      (n == "Query") = false →
      (n == "Mutation") = false →
      (jsToLowerCase n == "queryfooargs") = false →
      (jsToLowerCase n == "mutationfooargs") = false →
      keepName2 n = true →
      (∃ a ∈ G, childName (typeChild a.type) = some n) →
      (rewriteDoc
          [⟨"ObjectTypeDefinition", n, F⟩,
           ⟨"ObjectTypeDefinition", "QueryfooArgs", G⟩,
           ⟨"ObjectTypeDefinition", "Query", [.mk "foo" oldArgs t0]⟩]).head?
        = some ⟨"InputObjectTypeDefinition", n, F⟩
      ∧ (rewriteDoc
          [⟨"ObjectTypeDefinition", n, F⟩,
           ⟨"ObjectTypeDefinition", "MutationfooArgs", G⟩,
           ⟨"ObjectTypeDefinition", "Mutation", [.mk "foo" oldArgs t0]⟩]).head?
        = some ⟨"InputObjectTypeDefinition", n, F⟩ := by
  intro n F G oldArgs t0 hq hm hqk hmk hkeep hhit
  constructor
  · -- Query scenario
    have hrepo : reposition
        [⟨"ObjectTypeDefinition", n, F⟩,
         ⟨"ObjectTypeDefinition", "QueryfooArgs", G⟩,
         ⟨"ObjectTypeDefinition", "Query", [.mk "foo" oldArgs t0]⟩]
        = [⟨"ObjectTypeDefinition", n, F⟩,
           ⟨"ObjectTypeDefinition", "QueryfooArgs", G⟩,
           ⟨"ObjectTypeDefinition", "Query", [.mk "foo" oldArgs t0]⟩] := by
      rw [reposition]
      have hf : findIdxAndVal (isObjNamed "Query")
          [⟨"ObjectTypeDefinition", n, F⟩,
           ⟨"ObjectTypeDefinition", "QueryfooArgs", G⟩,
           ⟨"ObjectTypeDefinition", "Query", [.mk "foo" oldArgs t0]⟩]
          = some (2, ⟨"ObjectTypeDefinition", "Query", [.mk "foo" oldArgs t0]⟩) := by
        simp +decide [findIdxAndVal, isObjNamed, hq]
      rw [hf]
      rfl
    obtain ⟨kA2, kB2, kC2, hbind, hinput⟩ :=
      bindOp_three "Query" "Query" "QueryfooArgs" "foo" n F G oldArgs t0 hq
        (by rwa [show jsToLowerCase ("Query" ++ "foo" ++ "Args") = "queryfooargs" from rfl])
        (by decide) (by decide) hhit
    subst hinput
    rw [rewriteDoc, hrepo, hbind]
    have hfM : findIdxAndVal (isObjNamed "Mutation")
        [⟨"InputObjectTypeDefinition", n, F⟩,
         ⟨kB2, "QueryfooArgs", G⟩,
         ⟨kC2, "Query", [.mk "foo" G t0]⟩] = none := by
      apply findIdxAndVal_none
      intro d hd
      simp only [List.mem_cons, List.not_mem_nil, or_false] at hd
      rcases hd with h | h | h <;> subst h <;> simp +decide [isObjNamed, hm]
    rw [bindOp, hfM, pruneDefs]
    simp +decide [List.filter_cons, List.filter_nil, hkeep]
  · -- Mutation scenario
    have hrepo : reposition
        [⟨"ObjectTypeDefinition", n, F⟩,
         ⟨"ObjectTypeDefinition", "MutationfooArgs", G⟩,
         ⟨"ObjectTypeDefinition", "Mutation", [.mk "foo" oldArgs t0]⟩]
        = [⟨"ObjectTypeDefinition", n, F⟩,
           ⟨"ObjectTypeDefinition", "MutationfooArgs", G⟩,
           ⟨"ObjectTypeDefinition", "Mutation", [.mk "foo" oldArgs t0]⟩] := by
      rw [reposition]
      have hf : findIdxAndVal (isObjNamed "Query")
          [⟨"ObjectTypeDefinition", n, F⟩,
           ⟨"ObjectTypeDefinition", "MutationfooArgs", G⟩,
           ⟨"ObjectTypeDefinition", "Mutation", [.mk "foo" oldArgs t0]⟩] = none := by
        apply findIdxAndVal_none
        intro d hd
        simp only [List.mem_cons, List.not_mem_nil, or_false] at hd
        rcases hd with h | h | h <;> subst h <;> simp +decide [isObjNamed, hq]
      rw [hf]
    have hfQ : findIdxAndVal (isObjNamed "Query")
        [⟨"ObjectTypeDefinition", n, F⟩,
         ⟨"ObjectTypeDefinition", "MutationfooArgs", G⟩,
         ⟨"ObjectTypeDefinition", "Mutation", [.mk "foo" oldArgs t0]⟩] = none := by
      apply findIdxAndVal_none
      intro d hd
      simp only [List.mem_cons, List.not_mem_nil, or_false] at hd
      rcases hd with h | h | h <;> subst h <;> simp +decide [isObjNamed, hq]
    obtain ⟨kA2, kB2, kC2, hbind, hinput⟩ :=
      bindOp_three "Mutation" "Mutation" "MutationfooArgs" "foo" n F G oldArgs t0 hm
        (by rwa [show jsToLowerCase ("Mutation" ++ "foo" ++ "Args") = "mutationfooargs" from rfl])
        (by decide) (by decide) hhit
    subst hinput
    rw [rewriteDoc, hrepo, show bindOp "Query" "Query"
        [⟨"ObjectTypeDefinition", n, F⟩,
         ⟨"ObjectTypeDefinition", "MutationfooArgs", G⟩,
         ⟨"ObjectTypeDefinition", "Mutation", [.mk "foo" oldArgs t0]⟩]
        = [⟨"ObjectTypeDefinition", n, F⟩,
           ⟨"ObjectTypeDefinition", "MutationfooArgs", G⟩,
           ⟨"ObjectTypeDefinition", "Mutation", [.mk "foo" oldArgs t0]⟩] from by rw [bindOp, hfQ],
        hbind, pruneDefs]
    simp +decide [List.filter_cons, List.filter_nil, hkeep]

end GqlGen

namespace GqlGen

/-- Claim C1 (witness): the amended reclassification theorem applied to a
concrete `Address` document with a non-null argument type. -/
theorem rewrite_reclassify_amended_witness :
    ("Address" == "Query") = false
    ∧ ("Address" == "Mutation") = false
    ∧ (jsToLowerCase "Address" == "queryfooargs") = false
    ∧ (jsToLowerCase "Address" == "mutationfooargs") = false
    ∧ keepName2 "Address" = true
    ∧ (∃ a ∈ [FieldDef.mk "a" [] (.nonNull (.named "Address"))],
        childName (typeChild a.type) = some "Address")
    ∧ ((rewriteDoc
          [⟨"ObjectTypeDefinition", "Address", [.mk "street" [] (.named "String")]⟩,
           ⟨"ObjectTypeDefinition", "QueryfooArgs", [.mk "a" [] (.nonNull (.named "Address"))]⟩,
           ⟨"ObjectTypeDefinition", "Query", [.mk "foo" [] (.named "Address")]⟩]).head?
        = some ⟨"InputObjectTypeDefinition", "Address", [.mk "street" [] (.named "String")]⟩
      ∧ (rewriteDoc
          [⟨"ObjectTypeDefinition", "Address", [.mk "street" [] (.named "String")]⟩,
           ⟨"ObjectTypeDefinition", "MutationfooArgs", [.mk "a" [] (.nonNull (.named "Address"))]⟩,
           ⟨"ObjectTypeDefinition", "Mutation", [.mk "foo" [] (.named "Address")]⟩]).head?
        = some ⟨"InputObjectTypeDefinition", "Address", [.mk "street" [] (.named "String")]⟩) :=
  ⟨by decide, by decide, by decide, by decide, by decide,
   ⟨FieldDef.mk "a" [] (.nonNull (.named "Address")), by simp, rfl⟩,
   rewrite_reclassify_amended "Address" [.mk "street" [] (.named "String")]
     [.mk "a" [] (.nonNull (.named "Address"))] [] (.named "Address")
     (by decide) (by decide) (by decide) (by decide) (by decide)
     ⟨FieldDef.mk "a" [] (.nonNull (.named "Address")), by simp, rfl⟩⟩

end GqlGen
